import Mathlib

/-!
Verification of the USB HID report-descriptor decoder (crate usb_hid_item).

Bytes are modelled as natural numbers below 256 inside `List Nat`.  Machine
integers are modelled as `Nat` (u8/u16/u32/usize) and `Int` (i32); wherever the
Rust code can overflow, the reduction modulo the word size is written out
explicitly.  The item decoder (src/usb_hid_item/src/item.rs), the flat
stateful interpreter (src/usb_hid_item/src/lib.rs), the tree interpreter
(src/usb_hid_item/src/tree.rs) and the bit extractor are translated one
function at a time; the iterator loops become fuel-indexed recursions whose
wrappers supply fuel that provably exceeds the number of loop iterations.
-/

deriving instance DecidableEq for Except

namespace Usb

/-- Decode errors of the item-level parser (item.rs, enum ParseError). -/
inductive ItemError
  | Truncated
  | UnexpectedData
deriving DecidableEq

/-- Collection kinds (item.rs, enum Collection). -/
inductive Collection
  | Physical
  | Application
  | Logical
  | Report
  | NamedArray
  | UsageSwitch
  | UsageModifier
  | Unknown (raw : Nat)
deriving DecidableEq

/-- Collection::from_raw (item.rs). -/
def Collection.from_raw (raw : Nat) : Collection :=
  match raw with
  | 0x00 => .Physical
  | 0x01 => .Application
  | 0x02 => .Logical
  | 0x03 => .Report
  | 0x04 => .NamedArray
  | 0x05 => .UsageSwitch
  | 0x06 => .UsageModifier
  | r => .Unknown r

/-- Decoded items (item.rs, enum Item).  `MainFlags` is a plain u32 wrapper in
the source and is modelled as the bare `Nat` here. -/
inductive Item
  | Input (flags : Nat)
  | Output (flags : Nat)
  | Collection (ty : Usb.Collection)
  | Feature (flags : Nat)
  | EndCollection
  | UsagePage (p : Nat)
  | LogicalMin (n : Int)
  | LogicalMax (n : Int)
  | PhysicalMin (n : Int)
  | PhysicalMax (n : Int)
  | UnitExponent (n : Nat)
  | Unit (n : Nat)
  | ReportSize (n : Nat)
  | ReportId (n : Nat)
  | ReportCount (n : Nat)
  | Push
  | Pop
  | Usage16 (u : Nat)
  | Usage32 (page id : Nat)
  | UsageMin (u : Nat)
  | UsageMax (u : Nat)
  | DesignatorIndex (n : Nat)
  | DesignatorMin (n : Nat)
  | DesignatorMax (n : Nat)
  | StringIndex (n : Nat)
  | StringMin (n : Nat)
  | StringMax (n : Nat)
  | Delimiter (b : Bool)
  | Unknown (tag : Nat) (data : List Nat)
deriving DecidableEq

/-- Closure d8 in Item::parse: `d.try_into().map(u8::from_le_bytes)` —
exactly one byte is required. -/
def d8 (d : List Nat) : Except ItemError Nat :=
  match d with
  | [a] => .ok a
  | _ => .error .UnexpectedData

/-- Closure d8u in Item::parse: zero or one byte, zero bytes decode to 0. -/
def d8u (d : List Nat) : Except ItemError Nat :=
  match d with
  | [] => .ok 0
  | [a] => .ok a
  | _ => .error .UnexpectedData

/-- Closure d16u in Item::parse: up to two little-endian bytes, zero-extended. -/
def d16u (d : List Nat) : Except ItemError Nat :=
  match d with
  | [] => .ok 0
  | [a] => .ok a
  | [a, b] => .ok (a + 256 * b)
  | _ => .error .UnexpectedData

/-- Closure d32u in Item::parse: up to four little-endian bytes, zero-extended. -/
def d32u (d : List Nat) : Except ItemError Nat :=
  match d with
  | [] => .ok 0
  | [a] => .ok a
  | [a, b] => .ok (a + 256 * b)
  | [a, b, c] => .ok (a + 256 * b + 65536 * c)
  | [a, b, c, e] => .ok (a + 256 * b + 65536 * c + 16777216 * e)
  | _ => .error .UnexpectedData

/-- Value of `i8::from_le_bytes([a])` as an integer. -/
def i8ofByte (a : Nat) : Int :=
  if a < 0x80 then (a : Int) else (a : Int) - 0x100

/-- Value of `i16::from_le_bytes([a, b])` as an integer. -/
def i16ofBytes (a b : Nat) : Int :=
  if a + 256 * b < 0x8000 then (a + 256 * b : Nat) else (a + 256 * b : Nat) - 0x10000

/-- Value of `i32::from_le_bytes([a, b, c, e])` as an integer. -/
def i32ofBytes (a b c e : Nat) : Int :=
  if a + 256 * b + 65536 * c + 16777216 * e < 0x80000000 then
    (a + 256 * b + 65536 * c + 16777216 * e : Nat)
  else
    (a + 256 * b + 65536 * c + 16777216 * e : Nat) - 0x100000000

/-- Closure d32i in Item::parse: 0 to 4 bytes, sign-extended from the
payload's own top bit.  The three-byte arm fabricates the fourth byte as
`(c as i8 >> 7) as u8`, i.e. 0xFF when bit 7 of `c` is set and 0 otherwise. -/
def d32i (d : List Nat) : Except ItemError Int :=
  match d with
  | [] => .ok 0
  | [a] => .ok (i8ofByte a)
  | [a, b] => .ok (i16ofBytes a b)
  | [a, b, c] => .ok (i32ofBytes a b c (if c < 0x80 then 0 else 0xff))
  | [a, b, c, e] => .ok (i32ofBytes a b c e)
  | _ => .error .UnexpectedData

/-- Tag dispatch of Item::parse (item.rs lines 160-205): interpret the payload
`d` according to the tag's width class. -/
def Item.dispatch (tag : Nat) (d : List Nat) : Except ItemError Item :=
  match tag with
  | 0x80 => (d32u d).map .Input
  | 0x90 => (d32u d).map .Output
  | 0xa0 => (d8u d).map (fun n => .Collection (Collection.from_raw n))
  | 0xb0 => (d32u d).map .Feature
  | 0xc0 => if d = [] then .ok .EndCollection else .error .UnexpectedData
  | 0x04 => (d16u d).map .UsagePage
  | 0x14 => (d32i d).map .LogicalMin
  | 0x24 => (d32i d).map .LogicalMax
  | 0x34 => (d32i d).map .PhysicalMin
  | 0x44 => (d32i d).map .PhysicalMax
  | 0x54 => (d32u d).map .UnitExponent
  | 0x64 => (d32u d).map .Unit
  | 0x74 => (d32u d).map .ReportSize
  | 0x84 => (d8 d).map .ReportId
  | 0x94 => (d32u d).map .ReportCount
  | 0xa4 => .ok .Push
  | 0xb4 => .ok .Pop
  | 0x08 =>
    match d with
    | [] => .ok (.Usage16 0)
    | [a] => .ok (.Usage16 a)
    | [a, b] => .ok (.Usage16 (a + 256 * b))
    | [a, b, c] => .ok (.Usage32 c (a + 256 * b))
    | [a, b, c, e] => .ok (.Usage32 (c + 256 * e) (a + 256 * b))
    | _ => .error .UnexpectedData
  | 0x18 => (d16u d).map .UsageMin
  | 0x28 => (d16u d).map .UsageMax
  | 0x38 => (d32u d).map .DesignatorIndex
  | 0x48 => (d32u d).map .DesignatorMin
  | 0x58 => (d32u d).map .DesignatorMax
  | 0x78 => (d32u d).map .StringIndex
  | 0x88 => (d32u d).map .StringMin
  | 0x98 => (d32u d).map .StringMax
  | 0xa8 =>
    match d with
    | [0] => .ok (.Delimiter true)
    | [1] => .ok (.Delimiter false)
    | _ => .error .UnexpectedData
  | _ => .ok (.Unknown tag d)

/-- Item::parse (item.rs lines 104-208).  Reads the one-byte prefix; a prefix
equal to 0b1111_1110 declares a long item whose size is byte 1 and whose tag is
byte 2, otherwise the size is `(1 << (prefix & 3)) >> 1` and the tag is the
prefix with the low two bits cleared.  The payload is `data[1..1+size]`
(for long items too — exactly as the source slices it) and the remaining
buffer is `data[1+size..]`. -/
def Item.parse (data : List Nat) : Except ItemError (Item × List Nat) :=
  match data with
  | [] => .error .Truncated
  | pfx :: rest =>
    let hdr : Except ItemError (Nat × Nat) :=
      if pfx = 0xfe then
        match rest with
        | sz :: tg :: _ => .ok (sz, tg)
        | _ => .error .Truncated
      else
        .ok (2 ^ (pfx % 4) / 2, pfx - pfx % 4)
    match hdr with
    | .error e => .error e
    | .ok (size, tag) =>
      if size ≤ rest.length then
        match Item.dispatch tag (rest.take size) with
        | .error e => .error e
        | .ok it => .ok (it, rest.drop size)
      else .error .Truncated

/-- Interpreter-level errors (lib.rs, enum ParseError). -/
inductive ParseError
  | Truncated
  | UnexpectedData
  | UnexpectedItem (i : Item)
deriving DecidableEq

/-- ParseError::from_item (lib.rs). -/
def ParseError.from_item (e : ItemError) : ParseError :=
  match e with
  | .Truncated => .Truncated
  | .UnexpectedData => .UnexpectedData

/-- The per-frame interpreter state (the non-cursor fields of struct StackFrame
in lib.rs, identical to the cell fields of the tree parser in tree.rs). -/
structure FrameState where
  usage_page : Nat
  logical_min : Int
  logical_max : Int
  physical_min : Int
  physical_max : Int
  report_count : Nat
  report_size : Nat
  usage_min : Option Nat
  usage_max : Option Nat
deriving DecidableEq

/-- The all-zero state StackFrame::new / tree::parse start from. -/
def FrameState.init : FrameState :=
  { usage_page := 0, logical_min := 0, logical_max := 0, physical_min := 0,
    physical_max := 0, report_count := 0, report_size := 0,
    usage_min := none, usage_max := none }

/-- A fully resolved field (struct Field, identical in lib.rs and tree.rs). -/
structure Field where
  is_input : Bool
  flags : Nat
  logical_min : Int
  logical_max : Int
  physical_min : Int
  physical_max : Int
  report_count : Nat
  report_size : Nat
deriving DecidableEq

/-- The Field construction shared by the Input/Output arms of StackFrame::next
(lib.rs lines 126-143) and Tree::next (tree.rs lines 96-117): when both
physical bounds are zero they default to the logical bounds. -/
def emitField (is_input : Bool) (flags : Nat) (s : FrameState) : Field :=
  { is_input := is_input
    flags := flags
    logical_min := s.logical_min
    logical_max := s.logical_max
    physical_min :=
      if s.physical_min = 0 ∧ s.physical_max = 0 then s.logical_min else s.physical_min
    physical_max :=
      if s.physical_min = 0 ∧ s.physical_max = 0 then s.logical_max else s.physical_max
    report_count := s.report_count
    report_size := s.report_size }

/-- Values produced by the flat interpreter (lib.rs, enum Value).  A usage
range `ids: lo..=hi` is carried as the two bounds; `StackFrame` carries the
duplicated state handed to the nested cursor. -/
inductive Value
  | Collection (ty : Usb.Collection)
  | EndCollection
  | Field (f : Usb.Field)
  | Usage (page lo hi : Nat)
  | StackFrame (s : FrameState)
deriving DecidableEq

/-- Outcome of dispatching one decoded item inside the loop of
StackFrame::next: keep looping with an updated state, break with a value, or
break with end-of-frame (the Pop arm). -/
inductive StepRes
  | cont (s : FrameState)
  | emit (v : Except ParseError Value) (s : FrameState)
  | stop (s : FrameState)
deriving DecidableEq

/-- The match over one item in StackFrame::next (lib.rs lines 90-150). -/
def frameStep (it : Item) (s : FrameState) : StepRes :=
  match it with
  | .Collection ty => .emit (.ok (.Collection ty)) s
  | .EndCollection => .emit (.ok .EndCollection) s
  | .UsagePage p => .cont { s with usage_page := p }
  | .Usage16 u => .emit (.ok (.Usage s.usage_page u u)) s
  | .UsageMin mn =>
    match s.usage_max with
    | some mx => .emit (.ok (.Usage s.usage_page mn mx)) { s with usage_max := none }
    | none => .cont { s with usage_min := some mn }
  | .UsageMax mx =>
    match s.usage_min with
    | some mn => .emit (.ok (.Usage s.usage_page mn mx)) { s with usage_min := none }
    | none => .cont { s with usage_max := some mx }
  | .LogicalMin n => .cont { s with logical_min := n }
  | .LogicalMax n => .cont { s with logical_max := n }
  | .PhysicalMin n => .cont { s with physical_min := n }
  | .PhysicalMax n => .cont { s with physical_max := n }
  | .ReportCount n => .cont { s with report_count := n }
  | .ReportSize n => .cont { s with report_size := n }
  | .Input flags => .emit (.ok (.Field (emitField true flags s))) s
  | .Output flags => .emit (.ok (.Field (emitField false flags s))) s
  | .ReportId _ => .cont s
  | .Push => .emit (.ok (.StackFrame s)) s
  | .Pop => .stop s
  | .Unit _ => .cont s
  | .UnitExponent _ => .cont s
  | e => .emit (.error (.UnexpectedItem e)) s

/-- Fuel-indexed body of StackFrame::next (lib.rs lines 80-152).  The shared
byte cursor is the list of bytes not yet consumed: on a successful item parse
it advances to the rest (the `self.inner.data.set(it.data)` call), on a decode
error it stays on the erroring item, and `next` on an empty buffer yields
`none`.  One unit of fuel is spent per decoded item; since every item consumes
at least one byte, `data.length + 1` units always suffice. -/
def frameNextF : Nat → List Nat → FrameState →
    Option (Except ParseError Value) × List Nat × FrameState
  | 0, data, s => (none, data, s)
  | _ + 1, [], s => (none, [], s)
  | fuel + 1, b :: bs, s =>
    match Item.parse (b :: bs) with
    | .error e => (some (.error (ParseError.from_item e)), b :: bs, s)
    | .ok (it, rest) =>
      match frameStep it s with
      | .cont s' => frameNextF fuel rest s'
      | .emit v s' => (some v, rest, s')
      | .stop s' => (none, rest, s')

/-- StackFrame::next: one call of the flat interpreter's iterator, returning
the produced element together with the new shared cursor and frame state. -/
def frameNext (data : List Nat) (s : FrameState) :
    Option (Except ParseError Value) × List Nat × FrameState :=
  frameNextF (data.length + 1) data s

/-- Repeatedly call `frameNext` on one frame, collecting the produced elements
until the frame reports end-of-sequence (`some` of the collected list) or the
fuel runs out (`none`). -/
def runFlat : Nat → List Nat → FrameState → Option (List (Except ParseError Value))
  | 0, _, _ => none
  | fuel + 1, data, s =>
    match frameNext data s with
    | (none, _, _) => some []
    | (some v, data', s') => (runFlat fuel data' s').map (v :: ·)

/-- Values produced by the tree interpreter (tree.rs, enum Value).  The nested
`Collection` iterator shares every piece of parser state, so only its kind is
recorded here. -/
inductive TreeValue
  | Collection (ty : Usb.Collection)
  | Field (f : Usb.Field)
  | Usage (page lo hi : Nat)
deriving DecidableEq

/-- Observable outcome of one Tree::next call: an element, end of the current
scope (`None`), or the `todo!` panic on an unhandled item. -/
inductive TreeOut
  | value (v : Except ItemError TreeValue)
  | ended
  | panicked (it : Item)
deriving DecidableEq

/-- Outcome of dispatching one item inside the loop of Tree::next. -/
inductive TreeRes
  | tcont (s : FrameState)
  | temit (v : TreeValue) (s : FrameState)
  | tend (s : FrameState)
  | tpanic
deriving DecidableEq

/-- The match over one item in Tree::next (tree.rs lines 55-119).  Identical
to `frameStep` on the items both handle; EndCollection terminates the scope,
and every item without an arm hits the `todo!` catch-all. -/
def treeStep (it : Item) (s : FrameState) : TreeRes :=
  match it with
  | .Collection ty => .temit (.Collection ty) s
  | .EndCollection => .tend s
  | .UsagePage p => .tcont { s with usage_page := p }
  | .Usage16 u => .temit (.Usage s.usage_page u u) s
  | .UsageMin mn =>
    match s.usage_max with
    | some mx => .temit (.Usage s.usage_page mn mx) { s with usage_max := none }
    | none => .tcont { s with usage_min := some mn }
  | .UsageMax mx =>
    match s.usage_min with
    | some mn => .temit (.Usage s.usage_page mn mx) { s with usage_min := none }
    | none => .tcont { s with usage_max := some mx }
  | .LogicalMin n => .tcont { s with logical_min := n }
  | .LogicalMax n => .tcont { s with logical_max := n }
  | .PhysicalMin n => .tcont { s with physical_min := n }
  | .PhysicalMax n => .tcont { s with physical_max := n }
  | .ReportCount n => .tcont { s with report_count := n }
  | .ReportSize n => .tcont { s with report_size := n }
  | .Input flags => .temit (.Field (emitField true flags s)) s
  | .Output flags => .temit (.Field (emitField false flags s)) s
  | _ => .tpanic

/-- Fuel-indexed body of Tree::next (tree.rs lines 44-121).  The parser keeps
the full descriptor plus a shared byte index; on a successful item parse the
index is set to `data.len() - it.data.len()` before the item is dispatched, so
an error or the end of the buffer leaves the index where the previous item
left it. -/
def treeLoopF : Nat → List Nat → Nat → FrameState → TreeOut × Nat × FrameState
  | 0, _, pos, s => (.ended, pos, s)
  | fuel + 1, data, pos, s =>
    match data.drop pos with
    | [] => (.ended, pos, s)
    | b :: bs =>
      match Item.parse (b :: bs) with
      | .error e => (.value (.error e), pos, s)
      | .ok (it, rest) =>
        let pos' := data.length - rest.length
        match treeStep it s with
        | .tcont s' => treeLoopF fuel data pos' s'
        | .temit v s' => (.value (.ok v), pos', s')
        | .tend s' => (.ended, pos', s')
        | .tpanic => (.panicked it, pos', s)

/-- Tree::next: one call of the tree interpreter's iterator.  An index past
the end of the buffer makes `data.get(index..)` return `None`, which the `?`
operator turns into end-of-scope. -/
def treeNext (data : List Nat) (pos : Nat) (s : FrameState) :
    TreeOut × Nat × FrameState :=
  if pos ≤ data.length then treeLoopF (data.length - pos + 1) data pos s
  else (.ended, pos, s)

/-- u32 shift-left as compiled without overflow checks: the shift amount is
taken modulo 32 and the result modulo 2^32 (a shift amount of 32 or more
panics when overflow checks are enabled). -/
def shlWrap (v s : Nat) : Nat := (v <<< (s % 32)) % 2 ^ 32

/-- u32 addition as compiled without overflow checks. -/
def addWrap (a b : Nat) : Nat := (a + b) % 2 ^ 32

/-- Field::extract_u32 (lib.rs lines 225-237).  All arithmetic is u32; the
final `v %= 1 << report_size` is the source's masking step, with the shift
wrapping exactly as Rust's release-mode `<<` does. -/
def Field.extract_u32 (f : Field) (report : List Nat) (offset : Nat) : Option Nat :=
  if 32 < f.report_size then none
  else
    let start := offset
    let stop := addWrap offset f.report_size
    let start_i := start / 8
    let end_i := addWrap stop 7 / 8
    if start_i ≤ end_i ∧ end_i ≤ report.length then
      let slice := (report.drop start_i).take (end_i - start_i)
      let v := (slice.enum).foldl
        (fun v ib => v ||| (shlWrap ib.2 (ib.1 * 8)) >>> (start % 8)) 0
      some (v % shlWrap 1 f.report_size)
    else none

/-- Fuel-indexed Drop for StackFrame (lib.rs lines 155-159): keep calling
`next` while it yields `Some(Ok(..))`.  A yielded nested `StackFrame` value is
dropped immediately, which drains the nested scope first; `None` or a
`Some(Err(..))` stops the loop.  Returns `none` only on fuel exhaustion. -/
def drainFrameF : Nat → List Nat → FrameState → Option (List Nat × FrameState)
  | 0, _, _ => none
  | fuel + 1, data, s =>
    match frameNext data s with
    | (none, data', s') => some (data', s')
    | (some (.error _), data', s') => some (data', s')
    | (some (.ok (.StackFrame sc)), data', s') =>
      match drainFrameF fuel data' sc with
      | some (data'', _) => drainFrameF fuel data'' s'
      | none => none
    | (some (.ok _), data', s') => drainFrameF fuel data' s'

/-- Drop for StackFrame with always-sufficient fuel. -/
def drainFrame (data : List Nat) (s : FrameState) : Option (List Nat × FrameState) :=
  drainFrameF (data.length + 1) data s

/-- The QEMU USB tablet report descriptor (lib.rs test fixture, from QEMU's
usb/dev-hid.c). -/
def QEMU_USB_TABLET : List Nat :=
  [0x05, 0x01, 0x09, 0x02, 0xa1, 0x01, 0x09, 0x01, 0xa1, 0x00, 0x05, 0x09, 0x19, 0x01, 0x29,
   0x03, 0x15, 0x00, 0x25, 0x01, 0x95, 0x03, 0x75, 0x01, 0x81, 0x02, 0x95, 0x01, 0x75, 0x05,
   0x81, 0x01, 0x05, 0x01, 0x09, 0x30, 0x09, 0x31, 0x15, 0x00, 0x26, 0xff, 0x7f, 0x35, 0x00,
   0x46, 0xff, 0x7f, 0x75, 0x10, 0x95, 0x02, 0x81, 0x02, 0x05, 0x01, 0x09, 0x38, 0x15, 0x81,
   0x25, 0x7f, 0x35, 0x00, 0x45, 0x00, 0x75, 0x08, 0x95, 0x01, 0x81, 0x06, 0xc0, 0xc0]

/-- C1: interpreting the QEMU USB tablet report descriptor with the flat-model
interpreter yields exactly, in order: Usage{page 1, ids 2..=2},
Collection(Application), Usage{page 1, ids 1..=1}, Collection(Physical),
Usage{page 9, ids 1..=3}, Field(input, flags 0b010, logical 0..=1, physical
0..=1, count 3, size 1), Field(input, flags 0b1, logical 0..=1, physical 0..=1,
count 1, size 5), Usage{page 1, ids 0x30..=0x30}, Usage{page 1, ids
0x31..=0x31}, Field(input, flags 0b010, logical 0..=0x7fff, physical
0..=0x7fff, count 2, size 16), Usage{page 1, ids 0x38..=0x38}, Field(input,
flags 0b110, logical -0x7f..=0x7f, physical -0x7f..=0x7f, count 1, size 8),
EndCollection, EndCollection, and then the stream ends with no error (the
`some` result witnesses that the iterator returned end-of-sequence). -/
theorem c1_qemu_tablet_flat_decode :
    runFlat 20 QEMU_USB_TABLET FrameState.init = some
      [.ok (.Usage 1 2 2),
       .ok (.Collection .Application),
       .ok (.Usage 1 1 1),
       .ok (.Collection .Physical),
       .ok (.Usage 9 1 3),
       .ok (.Field ⟨true, 0b010, 0, 1, 0, 1, 3, 1⟩),
       .ok (.Field ⟨true, 0b1, 0, 1, 0, 1, 1, 5⟩),
       .ok (.Usage 1 0x30 0x30),
       .ok (.Usage 1 0x31 0x31),
       .ok (.Field ⟨true, 0b010, 0, 0x7fff, 0, 0x7fff, 2, 16⟩),
       .ok (.Usage 1 0x38 0x38),
       .ok (.Field ⟨true, 0b110, -0x7f, 0x7f, -0x7f, 0x7f, 1, 8⟩),
       .ok .EndCollection,
       .ok .EndCollection] := by
  decide

/-- C6, evaluation at the failing input: a field with report_size = 32 and a
report whose low byte is 0xFF.  The claim requires `some 0xff` (the OR-ed
bytes reduced modulo 2^32); the code's final masking step `v %= 1 <<
report_size` shifts by 32, which panics in a build with overflow checks and,
with Rust's release-mode masked shift, makes the divisor 1 so that the
function returns `some 0`. -/
theorem c6_extract_u32_size32_failing_input :
    Field.extract_u32 ⟨true, 0, 0, 0, 0, 0, 1, 32⟩ [0xff, 0, 0, 0] 0 = some 0 ∧
    Field.extract_u32 ⟨true, 0, 0, 0, 0, 0, 1, 32⟩ [0xff, 0, 0, 0] 0 ≠ some 0xff := by
  decide

/-- C7, evaluation at the failing input: the long item `FE 01 04 AA` declares
payload length 1 and tag 0x04; per the claim its payload is the byte 0xAA
after the tag and parsing consumes 3 + 1 = 4 bytes.  The code instead slices
the payload as `data[1..1+size]` — the length byte itself — and consumes only
`1 + size` bytes, so it decodes UsagePage(1) and leaves `[0x04, 0xAA]`
unconsumed. -/
theorem c7_long_item_failing_input :
    Item.parse [0xfe, 0x01, 0x04, 0xaa] = .ok (.UsagePage 1, [0x04, 0xaa]) ∧
    Item.parse [0xfe, 0x01, 0x04, 0xaa] ≠ .ok (.UsagePage 1, []) := by
  decide

/-- C8, evaluation at the failing input: descriptor UsageMin(1), Input,
UsageMax(3).  The claim (and the crate's own item documentation, which says
local items are flushed after a Main item) requires the lone pending
usage_min to be dropped when the Input field is emitted; the flat interpreter
keeps it, so the UsageMax that follows the Main item pairs with it and a
ranged Usage{page 0, ids 1..=3} spanning the Main-item boundary is emitted. -/
theorem c8_pending_usage_survives_main_item :
    runFlat 20 [0x19, 0x01, 0x80, 0x29, 0x03] FrameState.init = some
      [.ok (.Field ⟨true, 0, 0, 0, 0, 0, 0, 0⟩),
       .ok (.Usage 0 1 3)] := by
  decide

theorem Item.parse_length {data : List Nat} {it : Item} {rest : List Nat}
    (h : Item.parse data = .ok (it, rest)) : rest.length < data.length := by
  match data with
  | [] => simp [Item.parse] at h
  | pfx :: tl =>
    simp only [Item.parse] at h
    split at h
    · exact absurd h (by simp)
    · rename_i size tag _
      split at h
      · split at h
        · exact absurd h (by simp)
        · rename_i it' heq
          rw [Except.ok.injEq, Prod.mk.injEq] at h
          obtain ⟨-, h⟩ := h
          subst h
          simp only [List.length_cons, List.length_drop]
          omega
      · exact absurd h (by simp)

theorem frameNextF_congr :
    ∀ (f₁ f₂ : Nat) (d : List Nat) (s : FrameState), d.length < f₁ → d.length < f₂ →
      frameNextF f₁ d s = frameNextF f₂ d s := by
  intro f₁
  induction f₁ with
  | zero => intro f₂ d s h₁ _; omega
  | succ n ih =>
    intro f₂ d s h₁ h₂
    match f₂, d with
    | 0, d => omega
    | m + 1, [] => simp [frameNextF]
    | m + 1, b :: bs =>
      simp only [frameNextF]
      cases hp : Item.parse (b :: bs) with
      | error e => rfl
      | ok pr =>
        obtain ⟨it, rest⟩ := pr
        have hlt := Item.parse_length hp
        dsimp only
        cases frameStep it s with
        | cont s' =>
          exact ih m rest s' (by simp only [List.length_cons] at h₁ hlt; omega)
            (by simp only [List.length_cons] at h₂ hlt; omega)
        | emit v s' => rfl
        | stop s' => rfl

theorem frameNext_nil (s : FrameState) : frameNext [] s = (none, [], s) := by
  simp [frameNext, frameNextF]

theorem frameNext_step {data : List Nat} {it : Item} {rest : List Nat} (s : FrameState)
    (h : Item.parse data = .ok (it, rest)) :
    frameNext data s =
      match frameStep it s with
      | .cont s' => frameNext rest s'
      | .emit v s' => (some v, rest, s')
      | .stop s' => (none, rest, s') := by
  match data with
  | [] => simp [Item.parse] at h
  | b :: bs =>
    have hlt := Item.parse_length h
    show frameNextF (bs.length + 1 + 1) (b :: bs) s = _
    simp only [frameNextF]
    rw [h]
    dsimp only
    cases hs : frameStep it s with
    | cont s' =>
      exact frameNextF_congr (bs.length + 1) (rest.length + 1) rest s'
        (by simp only [List.length_cons] at hlt; omega)
        (by omega)
    | emit v s' => rfl
    | stop s' => rfl

theorem frameStep_emit_field {it : Item} {s : FrameState} {f : Field} {s₂ : FrameState}
    (h : frameStep it s = .emit (.ok (.Field f)) s₂) :
    s₂ = s ∧ ∃ b fl, f = emitField b fl s := by
  cases it <;>
    simp only [frameStep, StepRes.emit.injEq, Except.ok.injEq, Value.Field.injEq,
      reduceCtorEq, false_and, and_false] at h
  case Input fl => exact ⟨h.2.symm, true, fl, h.1.symm⟩
  case Output fl => exact ⟨h.2.symm, false, fl, h.1.symm⟩
  case UsageMin mn => split at h <;> simp at h
  case UsageMax mx => split at h <;> simp at h

theorem frameNextF_field_shape :
    ∀ (fuel : Nat) (d : List Nat) (s : FrameState) {f : Field} {d' : List Nat}
      {s' : FrameState},
      frameNextF fuel d s = (some (.ok (.Field f)), d', s') →
      ∃ b fl, f = emitField b fl s' := by
  intro fuel
  induction fuel with
  | zero => intro d s f d' s' h; simp [frameNextF] at h
  | succ n ih =>
    intro d s f d' s' h
    match d with
    | [] => simp [frameNextF] at h
    | b :: bs =>
      simp only [frameNextF] at h
      split at h
      · simp at h
      · split at h
        · exact ih _ _ h
        · rename_i v s₃ hstep
          rw [Prod.mk.injEq, Prod.mk.injEq, Option.some.injEq] at h
          obtain ⟨hv, -, hs⟩ := h
          subst hv hs
          obtain ⟨hs, b', fl, hf⟩ := frameStep_emit_field hstep
          exact ⟨b', fl, by rw [hf, hs]⟩
        · simp at h

theorem treeStep_emit_field {it : Item} {s : FrameState} {f : Field} {s₂ : FrameState}
    (h : treeStep it s = .temit (.Field f) s₂) :
    s₂ = s ∧ ∃ b fl, f = emitField b fl s := by
  cases it <;>
    simp only [treeStep, TreeRes.temit.injEq, TreeValue.Field.injEq, reduceCtorEq,
      false_and, and_false] at h
  case Input fl => exact ⟨h.2.symm, true, fl, h.1.symm⟩
  case Output fl => exact ⟨h.2.symm, false, fl, h.1.symm⟩
  case UsageMin mn => split at h <;> simp at h
  case UsageMax mx => split at h <;> simp at h

theorem treeLoopF_field_shape :
    ∀ (fuel : Nat) (data : List Nat) (pos : Nat) (s : FrameState) {f : Field}
      {pos' : Nat} {s' : FrameState},
      treeLoopF fuel data pos s = (.value (.ok (.Field f)), pos', s') →
      ∃ b fl, f = emitField b fl s' := by
  intro fuel
  induction fuel with
  | zero => intro data pos s f pos' s' h; simp [treeLoopF] at h
  | succ n ih =>
    intro data pos s f pos' s' h
    simp only [treeLoopF] at h
    split at h
    · simp at h
    · split at h
      · simp at h
      · split at h
        · exact ih _ _ _ h
        · rename_i v s₃ hstep
          rw [Prod.mk.injEq, Prod.mk.injEq] at h
          obtain ⟨hv, -, hs⟩ := h
          rw [TreeOut.value.injEq, Except.ok.injEq] at hv
          subst hv hs
          obtain ⟨hs, b', fl, hf⟩ := treeStep_emit_field hstep
          exact ⟨b', fl, by rw [hf, hs]⟩
        · simp at h
        · simp at h

/-- C3: for every Field emitted by either interpreter, with `s'` the parser
state returned alongside the Field (the Input/Output arms leave the state
untouched, so `s'` is exactly the global state at the moment the Input/Output
item is interpreted): when physical_min and physical_max are both zero the
field carries the logical bounds as its physical bounds, and otherwise it
carries the physical bounds unchanged. -/
theorem c3_physical_range_default :
    (∀ (data : List Nat) (s : FrameState) (f : Field) (d' : List Nat) (s' : FrameState),
      frameNext data s = (some (.ok (.Field f)), d', s') →
      ((s'.physical_min = 0 ∧ s'.physical_max = 0) →
        f.physical_min = s'.logical_min ∧ f.physical_max = s'.logical_max) ∧
      (¬(s'.physical_min = 0 ∧ s'.physical_max = 0) →
        f.physical_min = s'.physical_min ∧ f.physical_max = s'.physical_max)) ∧
    (∀ (data : List Nat) (pos : Nat) (s : FrameState) (f : Field) (pos' : Nat)
      (s' : FrameState),
      treeNext data pos s = (.value (.ok (.Field f)), pos', s') →
      ((s'.physical_min = 0 ∧ s'.physical_max = 0) →
        f.physical_min = s'.logical_min ∧ f.physical_max = s'.logical_max) ∧
      (¬(s'.physical_min = 0 ∧ s'.physical_max = 0) →
        f.physical_min = s'.physical_min ∧ f.physical_max = s'.physical_max)) := by
  constructor
  · intro data s f d' s' h
    obtain ⟨b, fl, hf⟩ := frameNextF_field_shape _ _ _ h
    subst hf
    by_cases hc : s'.physical_min = 0 ∧ s'.physical_max = 0 <;>
      simp [emitField, hc]
  · intro data pos s f pos' s' h
    unfold treeNext at h
    split at h
    · obtain ⟨b, fl, hf⟩ := treeLoopF_field_shape _ _ _ _ h
      subst hf
      by_cases hc : s'.physical_min = 0 ∧ s'.physical_max = 0 <;>
        simp [emitField, hc]
    · simp at h

/-- C3 witness: the one-byte descriptor `80` (Input, empty payload) interpreted
from the initial all-zero state: both physical bounds are zero, so the emitted
field inherits the logical bounds; evaluated through both interpreters. -/
theorem c3_witness :
    ((FrameState.init.physical_min = 0 ∧ FrameState.init.physical_max = 0) →
      (⟨true, 0, 0, 0, 0, 0, 0, 0⟩ : Field).physical_min = FrameState.init.logical_min ∧
      (⟨true, 0, 0, 0, 0, 0, 0, 0⟩ : Field).physical_max = FrameState.init.logical_max) ∧
    ((FrameState.init.physical_min = 0 ∧ FrameState.init.physical_max = 0) →
      (⟨true, 0, 0, 0, 0, 0, 0, 0⟩ : Field).physical_min = FrameState.init.logical_min ∧
      (⟨true, 0, 0, 0, 0, 0, 0, 0⟩ : Field).physical_max = FrameState.init.logical_max) :=
  ⟨(c3_physical_range_default.1 [0x80] FrameState.init ⟨true, 0, 0, 0, 0, 0, 0, 0⟩ []
      FrameState.init (by decide)).1,
   (c3_physical_range_default.2 [0x80] 0 FrameState.init ⟨true, 0, 0, 0, 0, 0, 0, 0⟩ 1
      FrameState.init (by decide)).1⟩

/-- C2: push/pop state isolation in the flat model.  The Push arm hands the
nested cursor a duplicate of the parent's state `s` and returns with the
parent's own state equal to that same `s`, so every later mutation performed
through the child acts on the copy only; whatever state `sc` the child has
accumulated when it reaches the Pop item, its iterator returns `None` with the
shared byte cursor placed immediately after the Pop; and the parent, whose
state is still the untouched `s`, then resolves a Usage item against its own
usage page — the one in effect before the Push. -/
theorem c2_push_pop_state_isolation :
    (∀ (data d₁ : List Nat) (s : FrameState),
      Item.parse data = .ok (.Push, d₁) →
      frameNext data s = (some (.ok (.StackFrame s)), d₁, s)) ∧
    (∀ (d₂ d₃ : List Nat) (sc : FrameState),
      Item.parse d₂ = .ok (.Pop, d₃) →
      frameNext d₂ sc = (none, d₃, sc)) ∧
    (∀ (d₃ d₄ : List Nat) (u : Nat) (s : FrameState),
      Item.parse d₃ = .ok (.Usage16 u, d₄) →
      frameNext d₃ s = (some (.ok (.Usage s.usage_page u u)), d₄, s)) := by
  refine ⟨fun data d₁ s h => ?_, fun d₂ d₃ sc h => ?_, fun d₃ d₄ u s h => ?_⟩
  · rw [frameNext_step s h]; rfl
  · rw [frameNext_step sc h]; rfl
  · rw [frameNext_step s h]; rfl


/-- C2 witness: descriptor `A4 05 03 B4 09 02` (Push, UsagePage(3), Pop,
Usage(2)).  The parent at state with usage_page 1 emits the child copy at the
Push; a child that has meanwhile set usage_page to 3 ends at the Pop with the
cursor on the Usage item; the parent then reads Usage(2) against page 1. -/
theorem c2_witness :
    frameNext [0xa4, 0x05, 0x03, 0xb4, 0x09, 0x02] { FrameState.init with usage_page := 1 } =
      (some (.ok (.StackFrame { FrameState.init with usage_page := 1 })),
        [0x05, 0x03, 0xb4, 0x09, 0x02], { FrameState.init with usage_page := 1 }) ∧
    frameNext [0xb4, 0x09, 0x02] { FrameState.init with usage_page := 3 } =
      (none, [0x09, 0x02], { FrameState.init with usage_page := 3 }) ∧
    frameNext [0x09, 0x02] { FrameState.init with usage_page := 1 } =
      (some (.ok (.Usage 1 2 2)), [], { FrameState.init with usage_page := 1 }) :=
  ⟨c2_push_pop_state_isolation.1 [0xa4, 0x05, 0x03, 0xb4, 0x09, 0x02]
      [0x05, 0x03, 0xb4, 0x09, 0x02] { FrameState.init with usage_page := 1 } (by decide),
   c2_push_pop_state_isolation.2.1 [0xb4, 0x09, 0x02] [0x09, 0x02]
      { FrameState.init with usage_page := 3 } (by decide),
   c2_push_pop_state_isolation.2.2 [0x09, 0x02] [] 2
      { FrameState.init with usage_page := 1 } (by decide)⟩

/-- The seven global-setter items both interpreters absorb without emitting a
value (the intervening non-Main items of the usage-pairing rule). -/
def globalSetter (it : Item) : Bool :=
  match it with
  | .UsagePage _ | .LogicalMin _ | .LogicalMax _ | .PhysicalMin _ | .PhysicalMax _
  | .ReportCount _ | .ReportSize _ => true
  | _ => false

/-- C4: usage pairing in both interpreters, stated over the per-item
transition of each.  A UsageMin with no pending usage_max stashes its value
and emits nothing; a UsageMax arriving while a usage_min is pending emits
exactly one ranged Usage on the current usage page and leaves both pending
slots clear (and symmetrically with the roles swapped); Usage16 always emits
immediately and neither reads nor writes the pending pair; and the
global-setter items that may intervene never touch the pending pair. -/
theorem c4_usage_pairing :
    (∀ (a : Nat) (s : FrameState), s.usage_max = none →
      frameStep (.UsageMin a) s = .cont { s with usage_min := some a }) ∧
    (∀ (b : Nat) (s : FrameState), s.usage_min = none →
      frameStep (.UsageMax b) s = .cont { s with usage_max := some b }) ∧
    (∀ (a b : Nat) (s : FrameState), s.usage_min = some a → s.usage_max = none →
      frameStep (.UsageMax b) s =
        .emit (.ok (.Usage s.usage_page a b)) { s with usage_min := none }) ∧
    (∀ (a b : Nat) (s : FrameState), s.usage_max = some b → s.usage_min = none →
      frameStep (.UsageMin a) s =
        .emit (.ok (.Usage s.usage_page a b)) { s with usage_max := none }) ∧
    (∀ (u : Nat) (s : FrameState),
      frameStep (.Usage16 u) s = .emit (.ok (.Usage s.usage_page u u)) s) ∧
    (∀ (it : Item) (s : FrameState), globalSetter it = true →
      ∃ s₂, frameStep it s = .cont s₂ ∧
        s₂.usage_min = s.usage_min ∧ s₂.usage_max = s.usage_max) ∧
    (∀ (a : Nat) (s : FrameState), s.usage_max = none →
      treeStep (.UsageMin a) s = .tcont { s with usage_min := some a }) ∧
    (∀ (b : Nat) (s : FrameState), s.usage_min = none →
      treeStep (.UsageMax b) s = .tcont { s with usage_max := some b }) ∧
    (∀ (a b : Nat) (s : FrameState), s.usage_min = some a → s.usage_max = none →
      treeStep (.UsageMax b) s =
        .temit (.Usage s.usage_page a b) { s with usage_min := none }) ∧
    (∀ (a b : Nat) (s : FrameState), s.usage_max = some b → s.usage_min = none →
      treeStep (.UsageMin a) s =
        .temit (.Usage s.usage_page a b) { s with usage_max := none }) ∧
    (∀ (u : Nat) (s : FrameState),
      treeStep (.Usage16 u) s = .temit (.Usage s.usage_page u u) s) ∧
    (∀ (it : Item) (s : FrameState), globalSetter it = true →
      ∃ s₂, treeStep it s = .tcont s₂ ∧
        s₂.usage_min = s.usage_min ∧ s₂.usage_max = s.usage_max) := by
  refine ⟨fun a s h => by simp [frameStep, h],
          fun b s h => by simp [frameStep, h],
          fun a b s h₁ h₂ => by simp [frameStep, h₁],
          fun a b s h₁ h₂ => by simp [frameStep, h₁],
          fun u s => rfl,
          fun it s h => ?_,
          fun a s h => by simp [treeStep, h],
          fun b s h => by simp [treeStep, h],
          fun a b s h₁ h₂ => by simp [treeStep, h₁],
          fun a b s h₁ h₂ => by simp [treeStep, h₁],
          fun u s => rfl,
          fun it s h => ?_⟩
  · cases it <;> first | exact ⟨_, rfl, rfl, rfl⟩ | exact Bool.noConfusion h
  · cases it <;> first | exact ⟨_, rfl, rfl, rfl⟩ | exact Bool.noConfusion h

/-- C4 witness: every conjunct of the pairing theorem instantiated at concrete
values (pending slots around a UsageMin 5 / UsageMax 9 pair on usage page 7,
Usage16 4, and an intervening ReportCount 6). -/
theorem c4_witness :
    frameStep (.UsageMin 5) { FrameState.init with usage_page := 7 } =
      .cont { FrameState.init with usage_page := 7, usage_min := some 5 } ∧
    frameStep (.UsageMax 9) { FrameState.init with usage_page := 7 } =
      .cont { FrameState.init with usage_page := 7, usage_max := some 9 } ∧
    frameStep (.UsageMax 9) { FrameState.init with usage_page := 7, usage_min := some 5 } =
      .emit (.ok (.Usage 7 5 9)) { FrameState.init with usage_page := 7 } ∧
    frameStep (.UsageMin 5) { FrameState.init with usage_page := 7, usage_max := some 9 } =
      .emit (.ok (.Usage 7 5 9)) { FrameState.init with usage_page := 7 } ∧
    frameStep (.Usage16 4) { FrameState.init with usage_page := 7, usage_min := some 5 } =
      .emit (.ok (.Usage 7 4 4)) { FrameState.init with usage_page := 7, usage_min := some 5 } ∧
    (∃ s₂, frameStep (.ReportCount 6) { FrameState.init with usage_min := some 5 } = .cont s₂ ∧
      s₂.usage_min = some 5 ∧ s₂.usage_max = none) ∧
    treeStep (.UsageMin 5) { FrameState.init with usage_page := 7 } =
      .tcont { FrameState.init with usage_page := 7, usage_min := some 5 } ∧
    treeStep (.UsageMax 9) { FrameState.init with usage_page := 7 } =
      .tcont { FrameState.init with usage_page := 7, usage_max := some 9 } ∧
    treeStep (.UsageMax 9) { FrameState.init with usage_page := 7, usage_min := some 5 } =
      .temit (.Usage 7 5 9) { FrameState.init with usage_page := 7 } ∧
    treeStep (.UsageMin 5) { FrameState.init with usage_page := 7, usage_max := some 9 } =
      .temit (.Usage 7 5 9) { FrameState.init with usage_page := 7 } ∧
    treeStep (.Usage16 4) { FrameState.init with usage_page := 7, usage_min := some 5 } =
      .temit (.Usage 7 4 4) { FrameState.init with usage_page := 7, usage_min := some 5 } ∧
    (∃ s₂, treeStep (.ReportCount 6) { FrameState.init with usage_min := some 5 } = .tcont s₂ ∧
      s₂.usage_min = some 5 ∧ s₂.usage_max = none) :=
  ⟨c4_usage_pairing.1 5 _ rfl,
   c4_usage_pairing.2.1 9 _ rfl,
   c4_usage_pairing.2.2.1 5 9 _ rfl rfl,
   c4_usage_pairing.2.2.2.1 5 9 _ rfl rfl,
   c4_usage_pairing.2.2.2.2.1 4 _,
   c4_usage_pairing.2.2.2.2.2.1 (.ReportCount 6) _ rfl,
   c4_usage_pairing.2.2.2.2.2.2.1 5 _ rfl,
   c4_usage_pairing.2.2.2.2.2.2.2.1 9 _ rfl,
   c4_usage_pairing.2.2.2.2.2.2.2.2.1 5 9 _ rfl rfl,
   c4_usage_pairing.2.2.2.2.2.2.2.2.2.1 5 9 _ rfl rfl,
   c4_usage_pairing.2.2.2.2.2.2.2.2.2.2.1 4 _,
   c4_usage_pairing.2.2.2.2.2.2.2.2.2.2.2 (.ReportCount 6) _ rfl⟩

/-- The spec's little-endian value of a payload. -/
def leVal : List Nat → Nat
  | [] => 0
  | b :: r => b + 256 * leVal r

/-- Modelled from the spec: sign extension of a w-bit value from its own top
bit (the spec's rule for the signed wide width class). -/
def toSigned (w n : Nat) : Int :=
  if n < 2 ^ (w - 1) then (n : Int) else (n : Int) - 2 ^ w

theorem i8_toSigned (a : Nat) (_ha : a < 256) : i8ofByte a = toSigned 8 a := by
  simp only [i8ofByte, toSigned]
  norm_num

theorem i16_toSigned (a b : Nat) (_ha : a < 256) (_hb : b < 256) :
    i16ofBytes a b = toSigned 16 (a + 256 * b) := by
  simp only [i16ofBytes, toSigned]
  norm_num

theorem i32_toSigned (a b c e : Nat) (_ha : a < 256) (_hb : b < 256) (_hc : c < 256)
    (_he : e < 256) :
    i32ofBytes a b c e = toSigned 32 (a + 256 * b + 65536 * c + 16777216 * e) := by
  simp only [i32ofBytes, toSigned]
  norm_num

theorem i24_toSigned (a b c : Nat) (ha : a < 256) (hbb : b < 256) (hc : c < 256) :
    i32ofBytes a b c (if c < 0x80 then 0 else 0xff) =
      toSigned 24 (a + 256 * b + 65536 * c) := by
  simp only [i32ofBytes, toSigned]
  split <;> split <;> split <;> push_cast <;> omega

/-- C5: the signed-wide decoder d32i maps a payload of at most four bytes to
the sign extension, from the payload's own top bit, of its little-endian
value — 0 bytes giving 0, 1 byte extending from bit 7, 2 bytes from bit 15, 3
bytes from bit 23, 4 bytes needing none — in particular `DE 00` decodes to
+0xDE and `FF FF` to -1, while five or more bytes yield UnexpectedData. -/
theorem c5_signed_wide_decoding :
    (∀ d : List Nat, (∀ b ∈ d, b < 256) → d.length ≤ 4 →
      d32i d = .ok (toSigned (8 * d.length) (leVal d))) ∧
    (∀ d : List Nat, 5 ≤ d.length → d32i d = .error .UnexpectedData) ∧
    d32i [0xde, 0x00] = .ok 0xde ∧
    d32i [0xff, 0xff] = .ok (-1) ∧
    d32i [] = .ok 0 := by
  refine ⟨fun d hb hl => ?_, fun d hl => ?_, by decide, by decide, by decide⟩
  · match d with
    | [] => simp [d32i, leVal, toSigned]
    | [a] =>
      have h1 := i8_toSigned a (hb a (by simp))
      simp only [d32i, leVal, List.length_cons, List.length_nil, Except.ok.injEq]
      simpa using h1
    | [a, b] =>
      have h1 := i16_toSigned a b (hb a (by simp)) (hb b (by simp))
      have h2 : leVal [a, b] = a + 256 * b := by simp only [leVal]; ring
      simp only [d32i, List.length_cons, List.length_nil, Except.ok.injEq, h2]
      simpa using h1
    | [a, b, c] =>
      have h1 := i24_toSigned a b c (hb a (by simp)) (hb b (by simp)) (hb c (by simp))
      have h2 : leVal [a, b, c] = a + 256 * b + 65536 * c := by simp only [leVal]; ring
      simp only [d32i, List.length_cons, List.length_nil, Except.ok.injEq, h2]
      simpa using h1
    | [a, b, c, e] =>
      have h1 := i32_toSigned a b c e (hb a (by simp)) (hb b (by simp)) (hb c (by simp))
        (hb e (by simp))
      have h2 : leVal [a, b, c, e] = a + 256 * b + 65536 * c + 16777216 * e := by
        simp only [leVal]; ring
      simp only [d32i, List.length_cons, List.length_nil, Except.ok.injEq, h2]
      simpa using h1
    | _ :: _ :: _ :: _ :: _ :: _ => simp at hl
  · match d with
    | [] | [_] | [_, _] | [_, _, _] | [_, _, _, _] => simp at hl
    | _ :: _ :: _ :: _ :: _ :: _ => rfl

/-- C5 witness: the three-byte payload `80 00 80` decodes through d32i to the
sign extension from bit 23 of its little-endian value 0x800080. -/
theorem c5_witness :
    d32i [0x80, 0x00, 0x80] = .ok (toSigned (8 * 3) (leVal [0x80, 0x00, 0x80])) :=
  c5_signed_wide_decoding.1 [0x80, 0x00, 0x80] (by decide) (by decide)

/-- The items the claim lists as reaching the `todo!` catch-all arm of
Tree::next. -/
def todoItem (it : Item) : Bool :=
  match it with
  | .ReportId _ | .Unit _ | .UnitExponent _ | .Push | .Pop | .Feature _
  | .Delimiter _ | .Unknown _ _ => true
  | _ => false

theorem treeStep_todo {it : Item} (s : FrameState) (h : todoItem it = true) :
    treeStep it s = .tpanic := by
  cases it <;> first | rfl | exact Bool.noConfusion h

/-- C10: partiality of the tree interpreter.  Whenever the item at the tree
cursor's read position decodes to a ReportId, Unit, UnitExponent, Push, Pop,
Feature, Delimiter, or Unknown item, Tree::next reaches the panicking `todo!`
arm (the `panicked` outcome) instead of skipping it or returning a typed
error, whereas the flat interpreter silently skips ReportId, Unit and
UnitExponent — its next coincides with next on the rest of the buffer with
the state unchanged. -/
theorem c10_tree_todo_panics :
    (∀ (data : List Nat) (pos : Nat) (s : FrameState) (it : Item) (rest : List Nat),
      pos ≤ data.length → Item.parse (data.drop pos) = .ok (it, rest) →
      todoItem it = true → (treeNext data pos s).1 = .panicked it) ∧
    (∀ (data rest : List Nat) (s : FrameState) (n : Nat),
      Item.parse data = .ok (.ReportId n, rest) → frameNext data s = frameNext rest s) ∧
    (∀ (data rest : List Nat) (s : FrameState) (n : Nat),
      Item.parse data = .ok (.Unit n, rest) → frameNext data s = frameNext rest s) ∧
    (∀ (data rest : List Nat) (s : FrameState) (n : Nat),
      Item.parse data = .ok (.UnitExponent n, rest) → frameNext data s = frameNext rest s) := by
  refine ⟨fun data pos s it rest hle hp ht => ?_,
          fun data rest s n h => by rw [frameNext_step s h]; rfl,
          fun data rest s n h => by rw [frameNext_step s h]; rfl,
          fun data rest s n h => by rw [frameNext_step s h]; rfl⟩
  unfold treeNext
  rw [if_pos hle]
  cases hd : data.drop pos with
  | nil => rw [hd] at hp; simp [Item.parse] at hp
  | cons b bs =>
    rw [hd] at hp
    simp only [treeLoopF]
    rw [hd]
    dsimp only
    rw [hp]
    dsimp only
    rw [treeStep_todo s ht]

/-- C10 witness: the two-byte descriptor `85 07` (ReportId 7): the tree
interpreter's first next panics on it while the flat interpreter skips it and
reports end of stream. -/
theorem c10_witness :
    (treeNext [0x85, 0x07] 0 FrameState.init).1 = .panicked (.ReportId 7) ∧
    frameNext [0x85, 0x07] FrameState.init = frameNext [] FrameState.init :=
  ⟨c10_tree_todo_panics.1 [0x85, 0x07] 0 FrameState.init (.ReportId 7) [] (by decide)
      (by decide) (by decide),
   c10_tree_todo_panics.2.1 [0x85, 0x07] [] FrameState.init 7 (by decide)⟩

/-- The items whose arrival makes the flat interpreter emit an
UnexpectedItem error (the catch-all arm of StackFrame::next). -/
def rejectedItem (it : Item) : Bool :=
  match it with
  | .Feature _ | .Usage32 _ _ | .DesignatorIndex _ | .DesignatorMin _ | .DesignatorMax _
  | .StringIndex _ | .StringMin _ | .StringMax _ | .Delimiter _ | .Unknown _ _ => true
  | _ => false

/-- Modelled from the spec: skipping all remaining items of a flat sub-scope.
The scope closes at its matching Pop (a nested Push opens a sub-scope that is
skipped recursively first) or at the end of the buffer; the cursor ends on
the byte immediately after the closing Pop.  Skipping fails (`none`) if a
decode error or an item the interpreter rejects is among the skipped items. -/
def skipScopeNF : Nat → List Nat → Option (List Nat)
  | 0, _ => none
  | _ + 1, [] => some []
  | fuel + 1, d =>
    match Item.parse d with
    | .error _ => none
    | .ok (it, rest) =>
      match it with
      | .Pop => some rest
      | .Push =>
        match skipScopeNF fuel rest with
        | some r => skipScopeNF fuel r
        | none => none
      | it' => if rejectedItem it' then none else skipScopeNF fuel rest

/-- Scope skipping with always-sufficient fuel (one item per fuel unit, one
byte per item at least). -/
def skipScopeN (d : List Nat) : Option (List Nat) :=
  skipScopeNF (d.length + 1) d

theorem skipScopeNF_le :
    ∀ (fuel : Nat) (d d' : List Nat), skipScopeNF fuel d = some d' →
      d'.length ≤ d.length := by
  intro fuel
  induction fuel with
  | zero => intro d d' h; simp [skipScopeNF] at h
  | succ n ih =>
    intro d d' h
    match d with
    | [] =>
      simp only [skipScopeNF, Option.some.injEq] at h
      subst h
      exact Nat.le_refl _
    | b :: bs =>
      simp only [skipScopeNF] at h
      split at h
      · exact absurd h (by simp)
      · rename_i it rest hp
        have hlt := Item.parse_length hp
        split at h
        · rw [Option.some.injEq] at h
          subst h
          omega
        · split at h
          · rename_i r hr
            have h₁ := ih rest r hr
            have h₂ := ih r d' h
            omega
          · exact absurd h (by simp)
        · split at h
          · exact absurd h (by simp)
          · have h₁ := ih rest d' h
            omega

theorem frameStep_progress (it : Item) (s : FrameState)
    (h₁ : rejectedItem it = false) (h₂ : it ≠ .Push) (h₃ : it ≠ .Pop) :
    (∃ s₂, frameStep it s = .cont s₂) ∨
    (∃ v s₂, frameStep it s = .emit (.ok v) s₂ ∧ ∀ sc, v ≠ .StackFrame sc) := by
  cases it
  case Push => exact absurd rfl h₂
  case Pop => exact absurd rfl h₃
  case UsageMin mn =>
    cases hm : s.usage_max with
    | none =>
      refine .inl ⟨{ s with usage_min := some mn }, ?_⟩
      simp [frameStep, hm]
    | some mx =>
      refine .inr ⟨.Usage s.usage_page mn mx, { s with usage_max := none }, ?_, ?_⟩
      · simp [frameStep, hm]
      · exact fun sc h => Value.noConfusion h
  case UsageMax mx =>
    cases hm : s.usage_min with
    | none =>
      refine .inl ⟨{ s with usage_max := some mx }, ?_⟩
      simp [frameStep, hm]
    | some mn =>
      refine .inr ⟨.Usage s.usage_page mn mx, { s with usage_min := none }, ?_, ?_⟩
      · simp [frameStep, hm]
      · exact fun sc h => Value.noConfusion h
  all_goals first
    | exact .inl ⟨_, rfl⟩
    | exact .inr ⟨_, _, rfl, fun sc h => Value.noConfusion h⟩
    | exact Bool.noConfusion h₁

theorem drainFrameF_congr_step {d rest : List Nat} {s s₂ : FrameState} (f : Nat)
    (h : frameNext d s = frameNext rest s₂) :
    drainFrameF (f + 1) d s = drainFrameF (f + 1) rest s₂ := by
  simp only [drainFrameF]
  rw [h]

theorem drainFrameF_emit {d : List Nat} {s : FrameState} {v : Value} {rest : List Nat}
    {s₂ : FrameState} (f : Nat) (h : frameNext d s = (some (.ok v), rest, s₂))
    (hv : ∀ sc, v ≠ .StackFrame sc) :
    drainFrameF (f + 1) d s = drainFrameF f rest s₂ := by
  simp only [drainFrameF]
  rw [h]
  cases v <;> first | rfl | exact absurd rfl (hv _)

theorem drain_eq_skip :
    ∀ (fuel : Nat) (d d' : List Nat) (s : FrameState),
      skipScopeNF fuel d = some d' →
      ∀ fuel₂ : Nat, d.length < fuel₂ →
      ∃ s'', drainFrameF fuel₂ d s = some (d', s'') := by
  intro fuel
  induction fuel with
  | zero => intro d d' s h; simp [skipScopeNF] at h
  | succ n ih =>
    intro d d' s h fuel₂ hf
    rcases fuel₂ with _ | f
    · omega
    rcases d with _ | ⟨b, bs⟩
    · simp only [skipScopeNF, Option.some.injEq] at h
      subst h
      exact ⟨s, by simp [drainFrameF, frameNext_nil]⟩
    · simp only [skipScopeNF] at h
      simp only [List.length_cons] at hf
      split at h
      · exact absurd h (by simp)
      · rename_i it rest hp
        have hlt := Item.parse_length hp
        simp only [List.length_cons] at hlt
        split at h
        · -- Pop closes the scope: the cursor ends right after it
          rw [Option.some.injEq] at h
          subst h
          have hfn : frameNext (b :: bs) s = (none, rest, s) := by
            rw [frameNext_step s hp]; rfl
          exact ⟨s, by simp only [drainFrameF]; rw [hfn]⟩
        · -- Push opens a nested scope that is drained first
          split at h
          · rename_i r hr
            have hfn : frameNext (b :: bs) s = (some (.ok (.StackFrame s)), rest, s) := by
              rw [frameNext_step s hp]; rfl
            obtain ⟨s₁, hd₁⟩ := ih rest r s hr f (by omega)
            have hrle := skipScopeNF_le n rest r hr
            obtain ⟨s₂, hd₂⟩ := ih r d' s h f (by omega)
            refine ⟨s₂, ?_⟩
            simp only [drainFrameF]
            rw [hfn]
            dsimp only
            rw [hd₁]
            exact hd₂
          · exact absurd h (by simp)
        · -- any other accepted item: the interpreter absorbs or emits it
          rename_i hne₁ hne₂
          split at h
          · exact absurd h (by simp)
          · rename_i hrej
            rw [Bool.not_eq_true] at hrej
            rcases frameStep_progress it s hrej (by rintro rfl; exact hne₂ rfl)
                (by rintro rfl; exact hne₁ rfl) with ⟨s₂, hstep⟩ | ⟨v, s₂, hstep, hv⟩
            · have hfn : frameNext (b :: bs) s = frameNext rest s₂ := by
                rw [frameNext_step s hp, hstep]
              obtain ⟨s'', hd⟩ := ih rest d' s₂ h (f + 1) (by omega)
              exact ⟨s'', by rw [drainFrameF_congr_step f hfn]; exact hd⟩
            · have hfn : frameNext (b :: bs) s = (some (.ok v), rest, s₂) := by
                rw [frameNext_step s hp, hstep]
              obtain ⟨s'', hd⟩ := ih rest d' s₂ h f (by omega)
              exact ⟨s'', by rw [drainFrameF_emit f hfn hv]; exact hd⟩

/-- The items Tree::next handles without ending the scope, opening a nested
collection, or panicking. -/
def treeHandles (it : Item) : Bool :=
  match it with
  | .UsagePage _ | .Usage16 _ | .UsageMin _ | .UsageMax _ | .LogicalMin _ | .LogicalMax _
  | .PhysicalMin _ | .PhysicalMax _ | .ReportCount _ | .ReportSize _
  | .Input _ | .Output _ => true
  | _ => false

/-- Modelled from the spec: skipping all remaining items of a tree sub-scope.
The scope closes at its matching EndCollection (a nested Collection opens a
sub-scope skipped recursively first) or at the end of the buffer; the index
ends on the byte after the closing EndCollection.  Skipping fails (`none`) on
a decode error or on an item the tree interpreter cannot handle. -/
def skipTreePF : Nat → List Nat → Nat → Option Nat
  | 0, _, _ => none
  | fuel + 1, data, pos =>
    match data.drop pos with
    | [] => some pos
    | b :: bs =>
      match Item.parse (b :: bs) with
      | .error _ => none
      | .ok (it, rest) =>
        match it with
        | .EndCollection => some (data.length - rest.length)
        | .Collection _ =>
          match skipTreePF fuel data (data.length - rest.length) with
          | some p => skipTreePF fuel data p
          | none => none
        | it' =>
          if treeHandles it' then skipTreePF fuel data (data.length - rest.length)
          else none

/-- Tree-scope skipping with always-sufficient fuel. -/
def skipTreeP (data : List Nat) (pos : Nat) : Option Nat :=
  skipTreePF (data.length - pos + 1) data pos

/-- Observable outcome of dropping a partially consumed Collection iterator. -/
inductive TreeDrain
  | done (pos : Nat) (s : FrameState)
  | panicked (it : Item)
deriving DecidableEq

/-- Fuel-indexed Drop for a tree Collection (tree.rs lines 152-156): keep
calling `next` while it yields `Some(Ok(..))`; a yielded nested Collection
value is dropped immediately, draining that scope first; a panic inside
propagates.  Returns `none` only on fuel exhaustion. -/
def drainTreeF : Nat → List Nat → Nat → FrameState → Option TreeDrain
  | 0, _, _, _ => none
  | fuel + 1, data, pos, s =>
    match treeNext data pos s with
    | (.ended, pos', s') => some (.done pos' s')
    | (.value (.error _), pos', s') => some (.done pos' s')
    | (.panicked it, _, _) => some (.panicked it)
    | (.value (.ok (.Collection _)), pos', s') =>
      match drainTreeF fuel data pos' s' with
      | some (TreeDrain.done pos'' s'') => drainTreeF fuel data pos'' s''
      | some (TreeDrain.panicked it) => some (TreeDrain.panicked it)
      | none => none
    | (.value (.ok _), pos', s') => drainTreeF fuel data pos' s'

/-- Drop for a tree Collection with always-sufficient fuel. -/
def drainTree (data : List Nat) (pos : Nat) (s : FrameState) : Option TreeDrain :=
  drainTreeF (data.length + 1) data pos s

theorem treeLoopF_congr :
    ∀ (f₁ f₂ : Nat) (data : List Nat) (pos : Nat) (s : FrameState),
      data.length - pos < f₁ → data.length - pos < f₂ →
      treeLoopF f₁ data pos s = treeLoopF f₂ data pos s := by
  intro f₁
  induction f₁ with
  | zero => intro f₂ data pos s h₁ _; omega
  | succ n ih =>
    intro f₂ data pos s h₁ h₂
    rcases f₂ with _ | m
    · omega
    simp only [treeLoopF]
    cases hd : data.drop pos with
    | nil => rfl
    | cons b bs =>
      dsimp only
      cases hp : Item.parse (b :: bs) with
      | error e => rfl
      | ok pr =>
        obtain ⟨it, rest⟩ := pr
        have hlt := Item.parse_length hp
        have e1 : data.length - pos = bs.length + 1 := by
          rw [← List.length_drop pos data, hd, List.length_cons]
        simp only [List.length_cons] at hlt
        dsimp only
        cases treeStep it s with
        | tcont s' => exact ih m data (data.length - rest.length) s' (by omega) (by omega)
        | temit v s' => rfl
        | tend s' => rfl
        | tpanic => rfl

theorem treeNext_ended {data : List Nat} {pos : Nat} (s : FrameState)
    (hle : pos ≤ data.length) (hd : data.drop pos = []) :
    treeNext data pos s = (.ended, pos, s) := by
  unfold treeNext
  rw [if_pos hle]
  simp only [treeLoopF]
  rw [hd]

theorem treeNext_step {data : List Nat} {pos : Nat} {it : Item} {rest : List Nat}
    (s : FrameState) (hle : pos ≤ data.length)
    (hp : Item.parse (data.drop pos) = .ok (it, rest)) :
    treeNext data pos s =
      match treeStep it s with
      | .tcont s' => treeNext data (data.length - rest.length) s'
      | .temit v s' => (.value (.ok v), data.length - rest.length, s')
      | .tend s' => (.ended, data.length - rest.length, s')
      | .tpanic => (.panicked it, data.length - rest.length, s) := by
  cases hd : data.drop pos with
  | nil => rw [hd] at hp; simp [Item.parse] at hp
  | cons b bs =>
    rw [hd] at hp
    have hlt := Item.parse_length hp
    have e1 : data.length - pos = bs.length + 1 := by
      rw [← List.length_drop pos data, hd, List.length_cons]
    simp only [List.length_cons] at hlt
    conv_lhs => rw [treeNext]
    rw [if_pos hle]
    simp only [treeLoopF]
    rw [hd]
    dsimp only
    rw [hp]
    dsimp only
    cases ht : treeStep it s with
    | tcont s' =>
      show treeLoopF _ data _ s' = treeNext data _ s'
      unfold treeNext
      rw [if_pos (by omega : data.length - rest.length ≤ data.length)]
      exact treeLoopF_congr _ _ data (data.length - rest.length) s' (by omega) (by omega)
    | temit v s' => rfl
    | tend s' => rfl
    | tpanic => rfl

theorem treeStep_progress (it : Item) (s : FrameState) (h : treeHandles it = true) :
    (∃ s₂, treeStep it s = .tcont s₂) ∨
    (∃ v s₂, treeStep it s = .temit v s₂ ∧ ∀ ty, v ≠ .Collection ty) := by
  cases it
  case UsageMin mn =>
    cases hm : s.usage_max with
    | none =>
      refine .inl ⟨{ s with usage_min := some mn }, ?_⟩
      simp [treeStep, hm]
    | some mx =>
      refine .inr ⟨.Usage s.usage_page mn mx, { s with usage_max := none }, ?_, ?_⟩
      · simp [treeStep, hm]
      · exact fun ty hh => TreeValue.noConfusion hh
  case UsageMax mx =>
    cases hm : s.usage_min with
    | none =>
      refine .inl ⟨{ s with usage_max := some mx }, ?_⟩
      simp [treeStep, hm]
    | some mn =>
      refine .inr ⟨.Usage s.usage_page mn mx, { s with usage_min := none }, ?_, ?_⟩
      · simp [treeStep, hm]
      · exact fun ty hh => TreeValue.noConfusion hh
  all_goals first
    | exact .inl ⟨_, rfl⟩
    | exact .inr ⟨_, _, rfl, fun ty hh => TreeValue.noConfusion hh⟩
    | exact Bool.noConfusion h

theorem skipTreePF_bounds :
    ∀ (fuel : Nat) (data : List Nat) (pos p : Nat),
      skipTreePF fuel data pos = some p → pos ≤ data.length →
      pos ≤ p ∧ p ≤ data.length := by
  intro fuel
  induction fuel with
  | zero => intro data pos p h _; simp [skipTreePF] at h
  | succ n ih =>
    intro data pos p h hle
    simp only [skipTreePF] at h
    split at h
    · rw [Option.some.injEq] at h
      subst h
      exact ⟨Nat.le_refl _, hle⟩
    · rename_i b bs hd
      split at h
      · exact absurd h (by simp)
      · rename_i it rest hp
        have hlt := Item.parse_length hp
        have e1 : data.length - pos = bs.length + 1 := by
          rw [← List.length_drop pos data, hd, List.length_cons]
        simp only [List.length_cons] at hlt
        split at h
        · rw [Option.some.injEq] at h
          subst h
          omega
        · split at h
          · rename_i p₁ hp₁
            have hb₁ := ih data _ p₁ hp₁ (by omega)
            have hb₂ := ih data p₁ p h (by omega)
            omega
          · exact absurd h (by simp)
        · split at h
          · have hb₁ := ih data _ p h (by omega)
            omega
          · exact absurd h (by simp)

theorem drainTreeF_congr_step {data : List Nat} {pos pos₂ : Nat} {s s₂ : FrameState}
    (f : Nat) (h : treeNext data pos s = treeNext data pos₂ s₂) :
    drainTreeF (f + 1) data pos s = drainTreeF (f + 1) data pos₂ s₂ := by
  simp only [drainTreeF]
  rw [h]

theorem drainTreeF_emit {data : List Nat} {pos pos' : Nat} {s s₂ : FrameState}
    {v : TreeValue} (f : Nat) (h : treeNext data pos s = (.value (.ok v), pos', s₂))
    (hv : ∀ ty, v ≠ .Collection ty) :
    drainTreeF (f + 1) data pos s = drainTreeF f data pos' s₂ := by
  simp only [drainTreeF]
  rw [h]
  cases v <;> first | rfl | exact absurd rfl (hv _)

theorem drainTree_eq_skip :
    ∀ (fuel : Nat) (data : List Nat) (pos p' : Nat) (s : FrameState),
      skipTreePF fuel data pos = some p' → pos ≤ data.length →
      ∀ fuel₂ : Nat, data.length - pos < fuel₂ →
      ∃ s'', drainTreeF fuel₂ data pos s = some (.done p' s'') := by
  intro fuel
  induction fuel with
  | zero => intro data pos p' s h; simp [skipTreePF] at h
  | succ n ih =>
    intro data pos p' s h hle fuel₂ hf
    rcases fuel₂ with _ | f
    · omega
    simp only [skipTreePF] at h
    split at h
    · rename_i hd
      rw [Option.some.injEq] at h
      subst h
      exact ⟨s, by simp only [drainTreeF]; rw [treeNext_ended s hle hd]⟩
    · rename_i b bs hd
      split at h
      · exact absurd h (by simp)
      · rename_i it rest hp
        rw [← hd] at hp
        have hlt := Item.parse_length hp
        rw [hd, List.length_cons] at hlt
        have e1 : data.length - pos = bs.length + 1 := by
          rw [← List.length_drop pos data, hd, List.length_cons]
        split at h
        · -- EndCollection closes the scope
          rw [Option.some.injEq] at h
          subst h
          have hfn : treeNext data pos s = (.ended, data.length - rest.length, s) := by
            rw [treeNext_step s hle hp]; rfl
          exact ⟨s, by simp only [drainTreeF]; rw [hfn]⟩
        · -- a nested Collection is drained before the loop resumes
          rename_i ty
          split at h
          · rename_i p₁ hp₁
            have hfn : treeNext data pos s =
                (.value (.ok (.Collection ty)), data.length - rest.length, s) := by
              rw [treeNext_step s hle hp]; rfl
            have hb₁ := skipTreePF_bounds n data _ p₁ hp₁ (by omega)
            obtain ⟨s₁, hd₁⟩ := ih data _ p₁ s hp₁ (by omega) f (by omega)
            obtain ⟨s₂, hd₂⟩ := ih data p₁ p' s₁ h (by omega) f (by omega)
            refine ⟨s₂, ?_⟩
            simp only [drainTreeF]
            rw [hfn]
            dsimp only
            rw [hd₁]
            exact hd₂
          · exact absurd h (by simp)
        · -- any other handled item is absorbed or emitted and skipped over
          split at h
          · rename_i hh
            rcases treeStep_progress it s hh with ⟨s₂, hstep⟩ | ⟨v, s₂, hstep, hv⟩
            · have hfn : treeNext data pos s = treeNext data (data.length - rest.length) s₂ := by
                rw [treeNext_step s hle hp, hstep]
              obtain ⟨s'', hdr⟩ := ih data (data.length - rest.length) p' s₂ h (by omega)
                (f + 1) (by omega)
              exact ⟨s'', by rw [drainTreeF_congr_step f hfn]; exact hdr⟩
            · have hfn : treeNext data pos s =
                  (.value (.ok v), data.length - rest.length, s₂) := by
                rw [treeNext_step s hle hp, hstep]
              obtain ⟨s'', hdr⟩ := ih data (data.length - rest.length) p' s₂ h (by omega)
                f (by omega)
              exact ⟨s'', by rw [drainTreeF_emit f hfn hv]; exact hdr⟩
          · exact absurd h (by simp)

/-- C9 counterexample: descriptor `A4 A9 02 B4 09 05` — Push, then a
Delimiter item with the invalid payload 2 (a decode error), then Pop, then
Usage(5).  The parent's next returns the Push sub-cursor with the shared
cursor on the Delimiter item; dropping that sub-cursor unconsumed stops at
the decode error (swallowing it) and leaves the shared cursor still on the
erroring Delimiter item — not at `09 05`, the first byte after the
sub-scope's closing Pop, as the claim requires. -/
theorem c9_counterexample :
    frameNext [0xa4, 0xa9, 0x02, 0xb4, 0x09, 0x05] FrameState.init =
      (some (.ok (.StackFrame FrameState.init)), [0xa9, 0x02, 0xb4, 0x09, 0x05],
        FrameState.init) ∧
    drainFrame [0xa9, 0x02, 0xb4, 0x09, 0x05] FrameState.init =
      some ([0xa9, 0x02, 0xb4, 0x09, 0x05], FrameState.init) ∧
    [0xa9, 0x02, 0xb4, 0x09, 0x05] ≠ ([0x09, 0x05] : List Nat) := by
  decide

/-- C9 (amended): dropping a partially consumed sub-cursor drains the rest of
its sub-scope when no decode error (and, for the tree model, no unimplemented
item) occurs among the skipped items: the shared cursor ends exactly where
the spec-side scope-skipping function puts it — immediately after the
matching Pop (flat model) or EndCollection (tree model), nested scopes
skipped recursively — whatever interpreter state the drains pass through.
When a decode error occurs among the skipped items, the drop swallows the
error but stops at the erroring item instead of advancing past the sub-scope
(the counterexample exhibits this). -/
theorem c9_drop_drains_abandoned_scope :
    (∀ (d d' : List Nat) (s : FrameState),
      skipScopeN d = some d' → ∃ s'', drainFrame d s = some (d', s'')) ∧
    (∀ (data : List Nat) (pos p' : Nat) (s : FrameState),
      pos ≤ data.length → skipTreeP data pos = some p' →
      ∃ s'', drainTree data pos s = some (.done p' s'')) := by
  constructor
  · intro d d' s h
    exact drain_eq_skip (d.length + 1) d d' s h (d.length + 1) (by omega)
  · intro data pos p' s hle h
    exact drainTree_eq_skip (data.length - pos + 1) data pos p' s h hle
      (data.length + 1) (by omega)

/-- C9 witness: an error-free flat scope `05 03 B4 09 05` (UsagePage, Pop,
Usage) drains to the byte right after the Pop, and an error-free tree scope
`05 03 C0 09 05` (UsagePage, EndCollection, Usage) drains to index 3, right
after the EndCollection. -/
theorem c9_witness :
    (∃ s'', drainFrame [0x05, 0x03, 0xb4, 0x09, 0x05] FrameState.init =
      some ([0x09, 0x05], s'')) ∧
    (∃ s'', drainTree [0x05, 0x03, 0xc0, 0x09, 0x05] 0 FrameState.init =
      some (.done 3 s'')) :=
  ⟨c9_drop_drains_abandoned_scope.1 [0x05, 0x03, 0xb4, 0x09, 0x05] [0x09, 0x05]
      FrameState.init (by decide),
   c9_drop_drains_abandoned_scope.2 [0x05, 0x03, 0xc0, 0x09, 0x05] 0 3
      FrameState.init (by decide) (by decide)⟩

end Usb
